import Mathlib

/-!
# Verification of the opnet-storage addressing and value layer

Shallow embedding of `assembly/StorageSlot.ts` and `assembly/StorageValue.ts`.

Modelling conventions:

* A 256-bit storage word (`u256`) is a `Nat`; the only arithmetic the source
  performs on words is `toU32` (reduction mod `2^32`) and `u256.from` of a
  `u32` (the identity on values below `2^32`), both made explicit below.
* A sub-key (`MemorySlotPointer`, a `u256` produced by `sha256`) is kept in
  its byte form as a `List Nat`.  The source converts between the 32-byte
  digest and `u256` with `fromArrayBuffer` / `toArrayBuffer`, which form a
  bijection on 32-byte buffers, so keeping the bytes is faithful: equality of
  sub-keys and the bytes fed back into `select` are preserved.  The slot
  produced by `StorageSlot.at` carries `u256.Zero`, whose byte form is 32
  zero bytes.
* The cryptographic hash `sha256` is an external dependency the repository
  treats as a black box, so every derivation operation is parameterised by an
  arbitrary digest function `H : Bytes → Bytes`.  Claims that need distinct
  digests for distinct inputs take the required no-collision facts as
  hypotheses; `injHash` below is a concrete injective instantiation used to
  discharge those hypotheses on concrete inputs.
* The host store (`BlockchainEnvironment.getStorageAt` / `setStorageAt`) is a
  partial map from `(pointer, subPointer)` to a word; `getStorageAt` is a
  point read returning the supplied default (`u256.Zero`) when the location
  was never written, `setStorageAt` a point write.  State is threaded
  explicitly: reads take the store, writes return the updated store.
-/

namespace OpnetStorage

/-- A byte sequence (each entry a byte value; an `ArrayBuffer` in the source). -/
abbrev Bytes := List Nat

/-- A 256-bit storage word (`u256` in the source), kept as a `Nat`. -/
abbrev Word := Nat

/-- UTF-8 encoding of a string (`String.UTF8.encode` in the source). -/
def utf8Encode (s : String) : Bytes :=
  (s.data.flatMap String.utf8EncodeChar).map UInt8.toNat

/-- A host-store address: the `u16` pointer paired with the sub-key bytes. -/
abbrev StoreKey := Nat × Bytes

/-- The host key-value store: a partial map from addresses to words.  `none`
means the location was never written. -/
def Store := StoreKey → Option Word

/-- The store in which no location was ever written. -/
def Store.empty : Store := fun _ => none

/-- `StorageSlot`: a `u16` namespace pointer plus a derived sub-key. -/
structure StorageSlot where
  pointer : Nat
  subPointer : Bytes
deriving DecidableEq, Repr

/-- The host-store address a slot reads and writes. -/
def StorageSlot.loc (s : StorageSlot) : StoreKey := (s.pointer, s.subPointer)

/-- `StorageSlot.wrap(v)`: namespace 0, sub-key `sha256(v)`. -/
def StorageSlot.wrap (H : Bytes → Bytes) (v : Bytes) : StorageSlot :=
  ⟨0, H v⟩

/-- `StorageSlot.for(keyword)`: `wrap` of the UTF-8 bytes of `keyword`. -/
def StorageSlot.forKeyword (H : Bytes → Bytes) (keyword : String) : StorageSlot :=
  StorageSlot.wrap H (utf8Encode keyword)

/-- `StorageSlot.at(pointer)`: the given pointer with sub-key `u256.Zero`
(32 zero bytes).  `at` is a reserved word in Lean, hence the longer name. -/
def StorageSlot.atPointer (pointer : Nat) : StorageSlot :=
  ⟨pointer, List.replicate 32 0⟩

/-- `select(v)`: same pointer, sub-key
`sha256(subPointer_bytes ++ sha256(v))`. -/
def StorageSlot.select (s : StorageSlot) (H : Bytes → Bytes) (v : Bytes) : StorageSlot :=
  ⟨s.pointer, H (s.subPointer ++ H v)⟩

/-- `keyword(key)`: `select` of the UTF-8 bytes of `key`. -/
def StorageSlot.keyword (s : StorageSlot) (H : Bytes → Bytes) (key : String) : StorageSlot :=
  s.select H (utf8Encode key)

/-- `get()`: point read at `(pointer, subPointer)`, default `u256.Zero`. -/
def StorageSlot.get (s : StorageSlot) (st : Store) : Word :=
  (st s.loc).getD 0

/-- `set(v)`: point write at `(pointer, subPointer)`. -/
def StorageSlot.set (s : StorageSlot) (st : Store) (v : Word) : Store :=
  fun k => if k = s.loc then some v else st k

/-- `lengthKey()`: the slot `keyword("/length")`. -/
def StorageSlot.lengthKey (s : StorageSlot) (H : Bytes → Bytes) : StorageSlot :=
  s.keyword H "/length"

/-- `length()`: `lengthKey().get().toU32()`; `toU32` keeps the low 32 bits. -/
def StorageSlot.length (s : StorageSlot) (H : Bytes → Bytes) (st : Store) : Nat :=
  (s.lengthKey H).get st % 2 ^ 32

/-- `selectIndex(index)`: the slot `keyword("/" + index.toString(10))`. -/
def StorageSlot.selectIndex (s : StorageSlot) (H : Bytes → Bytes) (index : Nat) : StorageSlot :=
  s.keyword H ("/" ++ toString index)

/-- `getList()`: allocates `new Array<u256>(<i32>this.length())` and fills
entry `i` with `selectIndex(i).get()`.  The `i32` cast makes a length of
`2^31` or more a negative array size, which aborts (`none`); otherwise the
result has exactly `length()` entries in increasing index order. -/
def StorageSlot.getList (s : StorageSlot) (H : Bytes → Bytes) (st : Store) :
    Option (List Word) :=
  if s.length H st < 2 ^ 31 then
    some ((List.range (s.length H st)).map fun i => (s.selectIndex H i).get st)
  else
    none

/-- `extend()`: reads the current length from the length slot, writes
`length + 1` (u32 addition, so wrapping mod `2^32`) back to it, and returns
`selectIndex(length)`.  Returns the slot together with the updated store. -/
def StorageSlot.extend (s : StorageSlot) (H : Bytes → Bytes) (st : Store) :
    StorageSlot × Store :=
  (s.selectIndex H (s.length H st),
   (s.lengthKey H).set st ((s.length H st + 1) % 2 ^ 32))

/-- `nullify()`: `set(u256.Zero)`. -/
def StorageSlot.nullify (s : StorageSlot) (st : Store) : Store :=
  s.set st 0

/-- `append(v)`: `extend().set(v)`. -/
def StorageSlot.append (s : StorageSlot) (H : Bytes → Bytes) (st : Store) (v : Word) : Store :=
  ((s.extend H st).1).set (s.extend H st).2 v

/-- The scalar kinds `StorageValue<T>` supports (boolean, u8, u16, u32, u64),
as the explicit tagged union the design notes of the spec call for. -/
inductive ScalarTy where
  | bool
  | u8
  | u16
  | u32
  | u64
deriving DecidableEq, Repr

/-- The number of bytes `load<T>` reads from the little-endian word buffer. -/
def ScalarTy.byteSize : ScalarTy → Nat
  | .bool => 1
  | .u8 => 1
  | .u16 => 2
  | .u32 => 4
  | .u64 => 8

/-- One past the largest representable value of each scalar kind (boolean
values are 0 and 1). -/
def ScalarTy.card : ScalarTy → Nat
  | .bool => 2
  | t => 2 ^ (8 * t.byteSize)

/-- `v` lies in the representable range of the scalar kind `t`. -/
abbrev ScalarTy.inRange (t : ScalarTy) (v : Nat) : Prop := v < t.card

/-- Reinterpreting the low `byteSize` bytes of the little-endian buffer of a word
as the scalar kind `t` (`load<T>` in `unwrap`): plain truncation for the
integer kinds, nonzero-byte test for booleans. -/
def ScalarTy.narrow (t : ScalarTy) (x : Nat) : Nat :=
  match t with
  | .bool => if x % 2 ^ 8 = 0 then 0 else 1
  | _ => x % 2 ^ (8 * t.byteSize)

/-- `StorageValue<T>`: a slot plus an in-memory cached word (`inner`). -/
structure StorageValue where
  inner : Word
  slot : StorageSlot

/-- `StorageValue.at(slot)`: cache starts at `u256.Zero`.  `at` is a reserved
word in Lean, hence the longer name. -/
def StorageValue.atSlot (slot : StorageSlot) : StorageValue :=
  ⟨0, slot⟩

/-- `save()`: `slot.set(u256.from(inner))`; `u256.from` of a word is the
identity.  Returns the value together with the updated store. -/
def StorageValue.save (sv : StorageValue) (st : Store) : StorageValue × Store :=
  (sv, sv.slot.set st sv.inner)

/-- `set(v)`: cache the widened scalar (`u256.from(v)`, the value itself for
every supported kind), then `save()`. -/
def StorageValue.set (sv : StorageValue) (v : Nat) (st : Store) : StorageValue × Store :=
  StorageValue.save { sv with inner := v } st

/-- `load()`: cache = `slot.get()`. -/
def StorageValue.load (sv : StorageValue) (st : Store) : StorageValue :=
  { sv with inner := sv.slot.get st }

/-- `unwrap()`: reinterpret the cached word as the scalar kind `t`. -/
def StorageValue.unwrap (t : ScalarTy) (sv : StorageValue) : Nat :=
  t.narrow sv.inner

/-- A concrete injective digest function.  The spec treats the hash as a
collision-resistant black box; this instantiation is used to evaluate the
abstract development on concrete inputs, where its injectivity discharges
the no-collision hypotheses outright. -/
def injHash (b : Bytes) : Bytes := 1 :: b

/-! ## Store lemmas shared by the claim theorems -/

theorem set_apply_self (s : StorageSlot) (st : Store) (v : Word) :
    s.set st v s.loc = some v := by
  simp [StorageSlot.set]

theorem set_apply_ne (s : StorageSlot) (st : Store) (v : Word) {k : StoreKey}
    (h : k ≠ s.loc) : s.set st v k = st k := by
  simp [StorageSlot.set, h]

theorem get_set_self (s : StorageSlot) (st : Store) (v : Word) :
    s.get (s.set st v) = v := by
  simp [StorageSlot.get, set_apply_self]

theorem get_set_ne (s t : StorageSlot) (st : Store) (v : Word)
    (h : t.loc ≠ s.loc) : t.get (s.set st v) = t.get st := by
  simp [StorageSlot.get, set_apply_ne _ _ _ h]

theorem append_unfold (H : Bytes → Bytes) (S : StorageSlot) (st : Store) (v : Word) :
    S.append H st v =
      (S.selectIndex H (S.length H st)).set
        ((S.lengthKey H).set st ((S.length H st + 1) % 2 ^ 32)) v :=
  rfl

theorem length_append (H : Bytes → Bytes) (S : StorageSlot) (st : Store) (v : Word)
    (hne : (S.lengthKey H).loc ≠ (S.selectIndex H (S.length H st)).loc) :
    S.length H (S.append H st v) = (S.length H st + 1) % 2 ^ 32 := by
  rw [StorageSlot.length, append_unfold, get_set_ne _ _ _ _ hne, get_set_self]
  omega

theorem get_append_elem (H : Bytes → Bytes) (S : StorageSlot) (st : Store) (v : Word) :
    (S.selectIndex H (S.length H st)).get (S.append H st v) = v := by
  rw [append_unfold, get_set_self]

theorem get_append_other (H : Bytes → Bytes) (S : StorageSlot) (st : Store) (v : Word)
    (t : StorageSlot)
    (h1 : t.loc ≠ (S.selectIndex H (S.length H st)).loc)
    (h2 : t.loc ≠ (S.lengthKey H).loc) :
    t.get (S.append H st v) = t.get st := by
  rw [append_unfold, get_set_ne _ _ _ _ h1, get_set_ne _ _ _ _ h2]

/-! ## Claim theorems -/

/-- C1: `select(P, e)` keeps the namespace pointer of the parent and derives the
child sub-key as `H(parent.subkey_bytes ++ H(e))`: parent bytes first, then
the hash of the extension, and that concatenation hashed once more. -/
theorem select_derives_child (H : Bytes → Bytes) (P : StorageSlot) (e : Bytes) :
    (P.select H e).pointer = P.pointer ∧
    (P.select H e).subPointer = H (P.subPointer ++ H e) :=
  ⟨rfl, rfl⟩

/-- C2 (counterexample): the list keys are *not* `keyword("length")` and
`keyword(decimalString(i))`: on a concrete slot with a concrete injective
digest, `lengthKey` differs from `keyword("length")` and `selectIndex 0`
differs from `keyword("0")` — the code prefixes both with `"/"`. -/
theorem list_keys_unprefixed_false :
    (StorageSlot.atPointer 1).lengthKey injHash ≠
        (StorageSlot.atPointer 1).keyword injHash "length" ∧
    (StorageSlot.atPointer 1).selectIndex injHash 0 ≠
        (StorageSlot.atPointer 1).keyword injHash "0" := by
  decide

/-- C2 (amended): the list length slot is `keyword("/length")` and the
element slot for index `i` is `keyword("/" ++ decimalString(i))` — the
decimal rendering of `i` prefixed by a slash. -/
theorem list_keys_use_slash (H : Bytes → Bytes) (S : StorageSlot) (i : Nat) :
    S.lengthKey H = S.keyword H "/length" ∧
    S.selectIndex H i = S.keyword H ("/" ++ toString i) :=
  ⟨rfl, rfl⟩

/-- C5: for every supported scalar kind, slot, store and in-range value `v`,
`StorageValue.at(slot).set(v)` followed by `load()` and `unwrap()` returns
`v`: store through the cache, re-read the word, narrow back. -/
theorem scalar_roundtrip (t : ScalarTy) (slot : StorageSlot) (st : Store) (v : Nat)
    (h : t.inRange v) :
    StorageValue.unwrap t
      (StorageValue.load ((StorageValue.atSlot slot).set v st).1
        ((StorageValue.atSlot slot).set v st).2) = v := by
  have hcache :
      (StorageValue.load ((StorageValue.atSlot slot).set v st).1
        ((StorageValue.atSlot slot).set v st).2).inner = v := by
    simp [StorageValue.load, StorageValue.set, StorageValue.save, StorageValue.atSlot,
      get_set_self]
  rw [StorageValue.unwrap, hcache]
  cases t with
  | bool =>
    simp only [ScalarTy.inRange, ScalarTy.card] at h
    interval_cases v <;> simp [ScalarTy.narrow]
  | u8 => exact Nat.mod_eq_of_lt h
  | u16 => exact Nat.mod_eq_of_lt h
  | u32 => exact Nat.mod_eq_of_lt h
  | u64 => exact Nat.mod_eq_of_lt h

/-- C5 witness at the scalar kind u32, value 7. -/
theorem scalar_roundtrip_witness :
    ScalarTy.inRange .u32 7 ∧
    StorageValue.unwrap .u32
      (StorageValue.load ((StorageValue.atSlot (StorageSlot.atPointer 2)).set 7 Store.empty).1
        ((StorageValue.atSlot (StorageSlot.atPointer 2)).set 7 Store.empty).2) = 7 :=
  ⟨by decide, scalar_roundtrip .u32 (StorageSlot.atPointer 2) Store.empty 7 (by decide)⟩

/-- C6: a point read of a never-written location returns the zero word; in
particular `length` of a list whose length slot was never written is 0, and
reading an element slot at an index at or beyond the current length (a
never-written location) returns the zero word rather than failing. -/
theorem unwritten_reads_zero (H : Bytes → Bytes) (st : Store)
    (slot S : StorageSlot) (i : Nat) (h : st slot.loc = none) :
    slot.get st = 0 ∧
    (st (S.lengthKey H).loc = none → S.length H st = 0) ∧
    (S.length H st ≤ i → st (S.selectIndex H i).loc = none →
      (S.selectIndex H i).get st = 0) := by
  refine ⟨?_, ?_, ?_⟩
  · simp [StorageSlot.get, h]
  · intro hl
    simp [StorageSlot.length, StorageSlot.get, hl]
  · intro _ he
    simp [StorageSlot.get, he]

/-- C6 witness on the empty store at index 5. -/
theorem unwritten_reads_zero_witness :
    (StorageSlot.atPointer 1).get Store.empty = 0 ∧
    (StorageSlot.atPointer 1).length injHash Store.empty = 0 ∧
    ((StorageSlot.atPointer 1).selectIndex injHash 5).get Store.empty = 0 := by
  obtain ⟨a, b, c⟩ :=
    unwritten_reads_zero injHash Store.empty (StorageSlot.atPointer 1)
      (StorageSlot.atPointer 1) 5 rfl
  exact ⟨a, b rfl, c (by decide) rfl⟩

/-- C7: `nullify` is exactly `set` of the zero word; after it, `get` returns
the zero word; and nullifying twice leaves the same store as nullifying
once. -/
theorem nullify_spec (S : StorageSlot) (st : Store) :
    S.nullify st = S.set st 0 ∧
    S.get (S.nullify st) = 0 ∧
    S.nullify (S.nullify st) = S.nullify st := by
  refine ⟨rfl, ?_, ?_⟩
  · exact get_set_self S st 0
  · funext k
    by_cases hk : k = S.loc <;> simp [StorageSlot.nullify, StorageSlot.set, hk]

/-- C3 (counterexample): in a store whose length slot holds the word
`2^32 - 1` (so the length narrows to `n = 2^32 - 1`), `extend` does not
write `n + 1 = 2^32` to the length slot: the u32 increment wraps. -/
theorem extend_plain_succ_false :
    (StorageSlot.atPointer 1).length injHash
        (((StorageSlot.atPointer 1).lengthKey injHash).set Store.empty (2 ^ 32 - 1)) =
      2 ^ 32 - 1 ∧
    ((StorageSlot.atPointer 1).extend injHash
          (((StorageSlot.atPointer 1).lengthKey injHash).set Store.empty (2 ^ 32 - 1))).2
        ((StorageSlot.atPointer 1).lengthKey injHash).loc ≠
      some (2 ^ 32 - 1 + 1) := by
  decide

/-- C3 (amended): when the length slot narrows to `n`, `extend` writes
`(n + 1) mod 2^32` to the length slot, returns `selectIndex(S, n)`, and
leaves every other store location untouched (the read of the old length,
the single write, the returned index). -/
theorem extend_spec (H : Bytes → Bytes) (S : StorageSlot) (st : Store) (k : StoreKey)
    (hk : k ≠ (S.lengthKey H).loc) :
    ((S.extend H st).2) (S.lengthKey H).loc = some ((S.length H st + 1) % 2 ^ 32) ∧
    (S.extend H st).1 = S.selectIndex H (S.length H st) ∧
    ((S.extend H st).2) k = st k := by
  exact ⟨set_apply_self _ _ _, rfl, set_apply_ne _ _ _ hk⟩

/-- C3 witness on the empty store, untouched location `(0, [])`. -/
theorem extend_spec_witness :
    ((StorageSlot.atPointer 1).extend injHash Store.empty).2
        ((StorageSlot.atPointer 1).lengthKey injHash).loc =
      some (((StorageSlot.atPointer 1).length injHash Store.empty + 1) % 2 ^ 32) ∧
    ((StorageSlot.atPointer 1).extend injHash Store.empty).1 =
      (StorageSlot.atPointer 1).selectIndex injHash
        ((StorageSlot.atPointer 1).length injHash Store.empty) ∧
    ((StorageSlot.atPointer 1).extend injHash Store.empty).2 (0, []) =
      Store.empty (0, []) :=
  extend_spec injHash (StorageSlot.atPointer 1) Store.empty (0, []) (by decide)

/-- C9: when the length slot holds a word narrowing to `2^32 - 1`, `extend`
writes 0 (the u32 increment wraps modulo `2^32`) and returns the slot for
index `2^32 - 1`. -/
theorem extend_wraps_at_max (H : Bytes → Bytes) (S : StorageSlot) (st : Store) (w : Word)
    (h1 : st (S.lengthKey H).loc = some w) (h2 : w % 2 ^ 32 = 2 ^ 32 - 1) :
    ((S.extend H st).2) (S.lengthKey H).loc = some 0 ∧
    (S.extend H st).1 = S.selectIndex H (2 ^ 32 - 1) := by
  have hlen : S.length H st = 2 ^ 32 - 1 := by
    rw [StorageSlot.length, StorageSlot.get, h1]
    exact h2
  have hzero : (S.length H st + 1) % 2 ^ 32 = 0 := by
    rw [hlen]
    norm_num
  constructor
  · exact (set_apply_self _ _ _).trans (by rw [hzero])
  · show S.selectIndex H (S.length H st) = _
    rw [hlen]

/-- C9 witness: a store whose length slot holds exactly `2^32 - 1`. -/
theorem extend_wraps_at_max_witness :
    ((StorageSlot.atPointer 1).extend injHash
          (((StorageSlot.atPointer 1).lengthKey injHash).set Store.empty (2 ^ 32 - 1))).2
        ((StorageSlot.atPointer 1).lengthKey injHash).loc = some 0 ∧
    ((StorageSlot.atPointer 1).extend injHash
          (((StorageSlot.atPointer 1).lengthKey injHash).set Store.empty (2 ^ 32 - 1))).1 =
      (StorageSlot.atPointer 1).selectIndex injHash (2 ^ 32 - 1) :=
  extend_wraps_at_max injHash (StorageSlot.atPointer 1)
    (((StorageSlot.atPointer 1).lengthKey injHash).set Store.empty (2 ^ 32 - 1))
    (2 ^ 32 - 1) (set_apply_self _ _ _) (by decide)

/-- C8: `append` writes exactly the length slot and the element slot at the
pre-call length; every other store location holds the same word afterwards
as before. -/
theorem append_frame (H : Bytes → Bytes) (S : StorageSlot) (st : Store) (v : Word)
    (k : StoreKey) :
    (k ≠ (S.selectIndex H (S.length H st)).loc → k ≠ (S.lengthKey H).loc →
      S.append H st v k = st k) ∧
    S.append H st v (S.selectIndex H (S.length H st)).loc = some v ∧
    ((S.lengthKey H).loc ≠ (S.selectIndex H (S.length H st)).loc →
      S.append H st v (S.lengthKey H).loc = some ((S.length H st + 1) % 2 ^ 32)) := by
  refine ⟨?_, ?_, ?_⟩
  · intro h1 h2
    rw [append_unfold, set_apply_ne _ _ _ h1, set_apply_ne _ _ _ h2]
  · rw [append_unfold, set_apply_self]
  · intro h
    rw [append_unfold, set_apply_ne _ _ _ h, set_apply_self]

/-- C8 witness: appending 5 on the empty store, frame checked at `(0, [])`. -/
theorem append_frame_witness :
    (StorageSlot.atPointer 1).append injHash Store.empty 5 (0, []) = Store.empty (0, []) ∧
    (StorageSlot.atPointer 1).append injHash Store.empty 5
        ((StorageSlot.atPointer 1).selectIndex injHash
          ((StorageSlot.atPointer 1).length injHash Store.empty)).loc = some 5 ∧
    (StorageSlot.atPointer 1).append injHash Store.empty 5
        ((StorageSlot.atPointer 1).lengthKey injHash).loc =
      some (((StorageSlot.atPointer 1).length injHash Store.empty + 1) % 2 ^ 32) := by
  obtain ⟨a, b, c⟩ := append_frame injHash (StorageSlot.atPointer 1) Store.empty 5 (0, [])
  exact ⟨a (by decide) (by decide), b, c (by decide)⟩

/-- C10: `getList` casts the u32 length to `i32`; whenever the stored length
is at most `2^31 - 1` that cast is non-negative, so `getList` returns
(rather than aborting) a list of exactly `length` words whose `i`-th entry
is `selectIndex(i).get()`. -/
theorem getList_in_range (H : Bytes → Bytes) (S : StorageSlot) (st : Store)
    (h : S.length H st ≤ 2 ^ 31 - 1) :
    ∃ l : List Word, S.getList H st = some l ∧
      l.length = S.length H st ∧
      ∀ i, i < S.length H st → l[i]? = some ((S.selectIndex H i).get st) := by
  have h31 : S.length H st < 2 ^ 31 := by
    omega
  refine ⟨(List.range (S.length H st)).map fun i => (S.selectIndex H i).get st, ?_, ?_, ?_⟩
  · rw [StorageSlot.getList, if_pos h31]
  · simp
  · intro i hi
    simp [List.getElem?_map, List.getElem?_range, hi]

/-- C10 witness on the empty store (length 0). -/
theorem getList_in_range_witness :
    (StorageSlot.atPointer 1).length injHash Store.empty ≤ 2 ^ 31 - 1 ∧
    ∃ l : List Word, (StorageSlot.atPointer 1).getList injHash Store.empty = some l ∧
      l.length = (StorageSlot.atPointer 1).length injHash Store.empty ∧
      ∀ i, i < (StorageSlot.atPointer 1).length injHash Store.empty →
        l[i]? = some (((StorageSlot.atPointer 1).selectIndex injHash i).get Store.empty) :=
  ⟨by decide, getList_in_range injHash (StorageSlot.atPointer 1) Store.empty (by decide)⟩

/-- C4: starting from a store whose length slot for `S` was never written,
appending `v0, v1, v2` in order and then calling `getList` yields
`[v0, v1, v2]` in that order, and `length` reports 3.  The derived length
and element keys are assumed pairwise distinct (the hash is
collision-resistant; the witness discharges this with an injective digest). -/
theorem append_ordering (H : Bytes → Bytes) (S : StorageSlot) (st : Store)
    (v0 v1 v2 : Word)
    (h0 : st (S.lengthKey H).loc = none)
    (hL0 : (S.lengthKey H).loc ≠ (S.selectIndex H 0).loc)
    (hL1 : (S.lengthKey H).loc ≠ (S.selectIndex H 1).loc)
    (hL2 : (S.lengthKey H).loc ≠ (S.selectIndex H 2).loc)
    (h01 : (S.selectIndex H 0).loc ≠ (S.selectIndex H 1).loc)
    (h02 : (S.selectIndex H 0).loc ≠ (S.selectIndex H 2).loc)
    (h12 : (S.selectIndex H 1).loc ≠ (S.selectIndex H 2).loc) :
    S.getList H (S.append H (S.append H (S.append H st v0) v1) v2) = some [v0, v1, v2] ∧
    S.length H (S.append H (S.append H (S.append H st v0) v1) v2) = 3 := by
  have len0 : S.length H st = 0 := by
    rw [StorageSlot.length, StorageSlot.get, h0]
    rfl
  have len1 : S.length H (S.append H st v0) = 1 := by
    rw [length_append H S st v0 (by rw [len0]; exact hL0), len0]
    norm_num
  have len2 : S.length H (S.append H (S.append H st v0) v1) = 2 := by
    rw [length_append H S _ v1 (by rw [len1]; exact hL1), len1]
    norm_num
  have len3 : S.length H (S.append H (S.append H (S.append H st v0) v1) v2) = 3 := by
    rw [length_append H S _ v2 (by rw [len2]; exact hL2), len2]
    norm_num
  have e2 : (S.selectIndex H 2).get
      (S.append H (S.append H (S.append H st v0) v1) v2) = v2 := by
    have h := get_append_elem H S (S.append H (S.append H st v0) v1) v2
    rw [len2] at h
    exact h
  have e1 : (S.selectIndex H 1).get
      (S.append H (S.append H (S.append H st v0) v1) v2) = v1 := by
    rw [get_append_other H S _ v2 _ (by rw [len2]; exact h12) (Ne.symm hL1)]
    have h := get_append_elem H S (S.append H st v0) v1
    rw [len1] at h
    exact h
  have e0 : (S.selectIndex H 0).get
      (S.append H (S.append H (S.append H st v0) v1) v2) = v0 := by
    rw [get_append_other H S _ v2 _ (by rw [len2]; exact h02) (Ne.symm hL0)]
    rw [get_append_other H S _ v1 _ (by rw [len1]; exact h01) (Ne.symm hL0)]
    have h := get_append_elem H S st v0
    rw [len0] at h
    exact h
  refine ⟨?_, len3⟩
  rw [StorageSlot.getList, len3, if_pos (by norm_num : (3 : Nat) < 2 ^ 31)]
  rw [show List.range 3 = [0, 1, 2] from rfl]
  simp [e0, e1, e2]

/-- C4 witness: appending 5, 6, 7 on the empty store with the injective
digest. -/
theorem append_ordering_witness :
    (StorageSlot.atPointer 1).getList injHash
        ((StorageSlot.atPointer 1).append injHash
          ((StorageSlot.atPointer 1).append injHash
            ((StorageSlot.atPointer 1).append injHash Store.empty 5) 6) 7) =
      some [5, 6, 7] ∧
    (StorageSlot.atPointer 1).length injHash
        ((StorageSlot.atPointer 1).append injHash
          ((StorageSlot.atPointer 1).append injHash
            ((StorageSlot.atPointer 1).append injHash Store.empty 5) 6) 7) = 3 :=
  append_ordering injHash (StorageSlot.atPointer 1) Store.empty 5 6 7 rfl
    (by decide) (by decide) (by decide) (by decide) (by decide) (by decide)

end OpnetStorage
